import Mathlib

/-!
Verification of the change-to-syntax mapping engine of the `code-diff`
repository (`src/code_diff/ast_mapper.py`) together with the path
derivation of its unified-diff adapter (`src/code_diff/diff_parser.py`).

The concrete syntax tree is supplied by an external parser (tree-sitter);
it is modelled here as an inductive tree `SNode` whose fields mirror the
tree-sitter node attributes used by the code: `type`, `start_point[0]`
(here `start_row`), `end_point[0]` (`end_row`), `start_byte`, `end_byte`,
and `children`.  A node's `text` attribute is, in tree-sitter, exactly the
slice of the source bytes between its byte offsets, and it is modelled
that way.  Source bytes are modelled as `List Char`.  The upward `parent`
chain of a node is modelled by passing the list of its ancestors
(innermost first) to the functions that walk it.
-/

/-- Model of a tree-sitter syntax node (the fields `ast_mapper.py` reads). -/
inductive SNode where
  | mk : String → Nat → Nat → Nat → Nat → List SNode → SNode

/-- `node.type` -/
def SNode.type : SNode → String
  | .mk t _ _ _ _ _ => t

/-- `node.start_point[0]` (0-based row of the node's first line) -/
def SNode.start_row : SNode → Nat
  | .mk _ sr _ _ _ _ => sr

/-- `node.end_point[0]` (0-based row of the node's last line) -/
def SNode.end_row : SNode → Nat
  | .mk _ _ er _ _ _ => er

/-- `node.start_byte` -/
def SNode.start_byte : SNode → Nat
  | .mk _ _ _ sb _ _ => sb

/-- `node.end_byte` -/
def SNode.end_byte : SNode → Nat
  | .mk _ _ _ _ eb _ => eb

/-- `node.children` -/
def SNode.children : SNode → List SNode
  | .mk _ _ _ _ _ cs => cs

/-- `node.text` / `source_bytes[node.start_byte:node.end_byte]` -/
def SNode.text (node : SNode) (source_bytes : List Char) : List Char :=
  (source_bytes.drop node.start_byte).take (node.end_byte - node.start_byte)

/-- Model of `languages.LanguageInfo`: language name, the tree-sitter
parser (modelled as a function from source bytes to the root node, i.e.
`lang_info.parser.parse`), and the per-language `node_types` table
(a Python dict iterated in insertion order, hence an association list). -/
structure LanguageInfo where
  name : String
  parse : List Char → SNode
  node_types : List (String × List String)

/-- Model of `ast_mapper.ASTNode` (the produced change record). -/
structure ASTNode where
  type : String
  name : List Char
  line_start : Nat
  line_end : Nat
  change_type : String
  diff_lines : List Nat
  parent : Option (List Char)
  signature : List Char
  content : List Char
deriving DecidableEq, Repr

/-- The sentinel name returned when no name child is found
(`ast_mapper.py` line 52). -/
def anonymous_name : List Char := "<anonymous>".toList

/-- Inner loop of `_get_node_name` for a `variable_declarator` child
(`ast_mapper.py` lines 44-47): the first subchild typed `identifier` or
`name` replaces the current candidate; otherwise the candidate is kept. -/
def subchild_scan : List SNode → Option SNode → Option SNode
  | [], name_node => name_node
  | subchild :: rest, name_node =>
    if subchild.type == "identifier" || subchild.type == "name" then some subchild
    else subchild_scan rest name_node

/-- The child scan of `_get_node_name` (`ast_mapper.py` lines 28-47).
A child typed `identifier`, `name`, `property_identifier` or
`type_identifier` ends the scan at once (the `break`s); a
`variable_declarator` child updates the candidate via `subchild_scan`
but does NOT end the scan (that branch has no `break`). -/
def name_scan : List SNode → Option SNode → Option SNode
  | [], name_node => name_node
  | child :: rest, name_node =>
    if child.type == "identifier" then some child
    else if child.type == "name" then some child
    else if child.type == "property_identifier" then some child
    else if child.type == "type_identifier" then some child
    else if child.type == "variable_declarator" then
      name_scan rest (subchild_scan child.children name_node)
    else name_scan rest name_node

/-- `_get_node_name` (`ast_mapper.py` lines 22-52).  `node.text` is the
slice of the source bytes, so the source is an extra argument here. -/
def get_node_name (node : SNode) (source_bytes : List Char) (language : String) : List Char :=
  match name_scan node.children none with
  | some name_node => name_node.text source_bytes
  | none => anonymous_name

/-- Python `str` whitespace (for `strip` / `rstrip`). -/
def is_py_space (c : Char) : Bool :=
  c == ' ' || c == '\t' || c == '\n' || c == '\r' || c == '\x0b' || c == '\x0c'

/-- Python `str.rstrip()` with no argument. -/
def rstrip_chars (s : List Char) : List Char :=
  (s.reverse.dropWhile is_py_space).reverse

/-- Python `str.strip()` with no argument. -/
def strip_chars (s : List Char) : List Char :=
  (rstrip_chars s).dropWhile is_py_space

/-- `line.rstrip().endswith(":")` (`ast_mapper.py` line 74). -/
def ends_with_colon (line : List Char) : Bool :=
  match (rstrip_chars line).getLast? with
  | some c => c == ':'
  | none => false

/-- `node_text.split("\n")` (`ast_mapper.py` line 65).  Mirrors Python's
`str.split` on a separator: the empty text yields one empty line. -/
def split_lines : List Char → List (List Char)
  | [] => [[]]
  | c :: cs =>
    match split_lines cs with
    | [] => [[]]
    | l :: ls => if c == '\n' then [] :: l :: ls else (c :: l) :: ls

/-- `"\n".join(parts)`. -/
def join_lines : List (List Char) → List Char
  | [] => []
  | [l] => l
  | l :: l2 :: ls => l ++ '\n' :: join_lines (l2 :: ls)

/-- The Python branch of `_get_signature` (`ast_mapper.py` lines 71-76):
append each line and stop (inclusively) at the first line whose
right-stripped text ends with a colon. -/
def python_sig_parts : List (List Char) → List (List Char)
  | [] => []
  | line :: rest => line :: (if ends_with_colon line then [] else python_sig_parts rest)

/-- The opening-brace character (written via its code point so that no
brace appears inside a string literal). -/
def brace_char : Char := Char.ofNat 123

/-- `"{" in line`. -/
def contains_brace (line : List Char) : Bool := line.contains brace_char

/-- `line.split("{")[0]`: the text of the line before its first opening
brace. -/
def before_brace (line : List Char) : List Char :=
  line.takeWhile (fun c => c != brace_char)

/-- The brace-language accumulation loop of `_get_signature`
(`ast_mapper.py` lines 86-93), with `sig_parts` as the accumulator:
a line containing a brace is appended truncated-and-stripped and the loop
stops; otherwise the line is appended and the loop stops once
`len(sig_parts) > 5`. -/
def brace_sig_parts : List (List Char) → List (List Char) → List (List Char)
  | sig_parts, [] => sig_parts
  | sig_parts, line :: rest =>
    if contains_brace line then sig_parts ++ [strip_chars (before_brace line)]
    else
      let sig_parts2 := sig_parts ++ [line]
      if sig_parts2.length > 5 then sig_parts2 else brace_sig_parts sig_parts2 rest

/-- `_get_signature` (`ast_mapper.py` lines 55-95).  The dead
`if not lines` guard of line 66 is the `[]` branch of the match
(`split_lines` never returns an empty list). -/
def get_signature (node : SNode) (source_bytes : List Char) (language : String) : List Char :=
  let node_text := node.text source_bytes
  match split_lines node_text with
  | [] => []
  | first_line :: rest =>
    if language == "python" then join_lines (python_sig_parts (first_line :: rest))
    else if contains_brace first_line then strip_chars (before_brace first_line)
    else join_lines (brace_sig_parts [first_line] rest)

/-- The class-like node types of `_get_parent_name`
(`ast_mapper.py` lines 103-106). -/
def class_like_types : List String :=
  ["class_definition", "class_declaration", "class_specifier",
   "struct_specifier", "impl_item"]

/-- `_get_parent_name` (`ast_mapper.py` lines 98-112).  The chain of
`node.parent` links is the ancestor list, innermost first: the first
class-like ancestor whose own name is not the sentinel gives the parent
name; an anonymous class-like ancestor does not stop the walk. -/
def get_parent_name (ancestors : List SNode) (source_bytes : List Char) : Option (List Char) :=
  match ancestors with
  | [] => none
  | parent :: rest =>
    if class_like_types.contains parent.type then
      let name := get_node_name parent source_bytes ""
      if name ≠ anonymous_name then some name
      else get_parent_name rest source_bytes
    else get_parent_name rest source_bytes

/-- `_categorize_node_type` (`ast_mapper.py` lines 115-120): first
category (in table order) whose type list contains the raw type. -/
def categorize_node_type (node_type : String) : List (String × List String) → Option String
  | [] => none
  | (category, types) :: rest =>
    if types.contains node_type then some category
    else categorize_node_type node_type rest

/-- Python truthiness of the optional parent name in
`if category == "function" and parent:` (`ast_mapper.py` line 160):
`None` and the empty string are falsy. -/
def parent_is_truthy : Option (List Char) → Bool
  | none => false
  | some s => !s.isEmpty

/-- `sorted(set(range(start, end+1)) & changed_lines)` — the overlap of
the node's 1-based inclusive line range with the changed-line set,
enumerated in ascending order without duplicates
(`ast_mapper.py` lines 137-138 and 169).  The changed-line set is
modelled as a list used only through membership. -/
def sorted_overlapping_lines (node_start_line node_end_line : Nat)
    (changed_lines : List Nat) : List Nat :=
  (List.range' node_start_line (node_end_line + 1 - node_start_line)).filter
    (fun l => changed_lines.contains l)

/-- Traversal state: the `results` list and the `seen_ranges` set of
`_find_containing_nodes`. -/
abbrev TravState := List ASTNode × List (Nat × Nat)

/-- The per-node body of `_find_containing_nodes`
(`ast_mapper.py` lines 143-173): categorize the node, skip it if its
`(start, end)` line range was already recorded, otherwise resolve name,
signature, parent and content, re-label a `function` inside a truthy
parent as a `method`, and append the record.  Only called when the
node's overlap with the changed lines is non-empty. -/
def process_node (changed_lines : List Nat) (source_bytes : List Char)
    (lang_info : LanguageInfo) (ancestors : List SNode) (node : SNode)
    (st : TravState) : TravState :=
  let node_start_line := node.start_row + 1
  let node_end_line := node.end_row + 1
  let overlapping_lines := sorted_overlapping_lines node_start_line node_end_line changed_lines
  match categorize_node_type node.type lang_info.node_types with
  | none => st
  | some category =>
    let range_key := (node_start_line, node_end_line)
    if range_key ∈ st.2 then st
    else
      let name := get_node_name node source_bytes lang_info.name
      let signature := get_signature node source_bytes lang_info.name
      let parent := get_parent_name ancestors source_bytes
      let content := node.text source_bytes
      let category := if category == "function" && parent_is_truthy parent then "method" else category
      (st.1 ++ [{ type := category, name := name,
                  line_start := node_start_line, line_end := node_end_line,
                  change_type := "modified", diff_lines := overlapping_lines,
                  parent := parent, signature := signature, content := content }],
       range_key :: st.2)

mutual

/-- `_find_containing_nodes` (`ast_mapper.py` lines 123-177): if the
node's line range does not overlap the changed lines the whole subtree is
pruned; otherwise the node is processed and the children are visited in
order with this node pushed onto the ancestor chain. -/
def find_containing_nodes (changed_lines : List Nat) (source_bytes : List Char)
    (lang_info : LanguageInfo) : List SNode → SNode → TravState → TravState
  | ancestors, SNode.mk t sr er sb eb cs, st =>
    if sorted_overlapping_lines (sr + 1) (er + 1) changed_lines = [] then st
    else
      find_containing_list changed_lines source_bytes lang_info
        (SNode.mk t sr er sb eb cs :: ancestors) cs
        (process_node changed_lines source_bytes lang_info ancestors
          (SNode.mk t sr er sb eb cs) st)

/-- The `for child in node.children` recursion of
`_find_containing_nodes` (`ast_mapper.py` lines 176-177). -/
def find_containing_list (changed_lines : List Nat) (source_bytes : List Char)
    (lang_info : LanguageInfo) : List SNode → List SNode → TravState → TravState
  | _, [], st => st
  | ancestors, c :: cs, st =>
    find_containing_list changed_lines source_bytes lang_info ancestors cs
      (find_containing_nodes changed_lines source_bytes lang_info ancestors c st)

end

/-- Stable insertion used to model `results.sort(key=lambda n: n.line_start)`
(`ast_mapper.py` line 214): the new element goes after every element whose
key is `≤` its own, so elements with equal keys keep their visit order. -/
def insert_by_line_start (a : ASTNode) : List ASTNode → List ASTNode
  | [] => [a]
  | b :: bs =>
    if b.line_start ≤ a.line_start then b :: insert_by_line_start a bs
    else a :: b :: bs

/-- Stable sort by `line_start` (`ast_mapper.py` line 214). -/
def sort_by_line_start (l : List ASTNode) : List ASTNode :=
  l.foldl (fun acc a => insert_by_line_start a acc) []

/-- The containment test of the post-pass filter
(`ast_mapper.py` lines 225-230): `node` lies strictly inside `other` and
`set(node.diff_lines) == set(other.diff_lines) & set(node.diff_lines)`,
i.e. every touched line of `node` is a touched line of `other`. -/
def node_is_contained_in (node other : ASTNode) : Bool :=
  decide (other.line_start ≤ node.line_start ∧ node.line_end ≤ other.line_end ∧
          (other.line_start < node.line_start ∨ node.line_end < other.line_end)) &&
  node.diff_lines.all (fun l => other.diff_lines.contains l)

/-- The computed-but-unapplied containment filter of `map_changes_to_ast`
(`ast_mapper.py` lines 218-235).  Python's `node is other` identity test
is modelled by comparing positions in the list. -/
def containment_filter (results : List ASTNode) : List ASTNode :=
  (results.enum.filter (fun p =>
    !(results.enum.any (fun q =>
      decide (q.1 ≠ p.1) && node_is_contained_in p.2 q.2)))).map Prod.snd

/-- `map_changes_to_ast` (`ast_mapper.py` lines 180-237): empty source or
empty changed-line set yields `[]`; otherwise the tree returned by the
parser is traversed, the results are sorted by `line_start`, the
containment filter is computed into `filtered_results`, and the
UNFILTERED `results` list is returned (line 237). -/
def map_changes_to_ast (source_code : List Char) (changed_lines : List Nat)
    (lang_info : LanguageInfo) : List ASTNode :=
  if source_code = [] ∨ changed_lines = [] then []
  else
    let source_bytes := source_code
    let tree := lang_info.parse source_bytes
    let st := find_containing_nodes changed_lines source_bytes lang_info [] tree ([], [])
    let results := sort_by_line_start st.1
    let filtered_results := containment_filter results
    results

/-- `FileStatus` of `diff_parser.py`. -/
inductive FileStatus where
  | added
  | deleted
  | modified
deriving DecidableEq

/-- Python `str.lstrip(chars)`: removes ALL leading characters drawn from
the character set, not a single prefix. -/
def lstrip_set (chars : List Char) (s : List Char) : List Char :=
  s.dropWhile (fun c => chars.contains c)

/-- The reported-path derivation of `parse_diff`
(`diff_parser.py` lines 59-63): `source_file.lstrip("a/")` for deleted
files, `target_file.lstrip("b/")` otherwise. -/
def derive_path (status : FileStatus) (source_file target_file : List Char) : List Char :=
  if status = FileStatus.deleted then lstrip_set "a/".toList source_file
  else lstrip_set "b/".toList target_file

/-- The `python` table of `languages.NODE_TYPES`
(`languages.py` lines 82-87), in insertion order. -/
def python_node_types : List (String × List String) :=
  [("function", ["function_definition"]),
   ("class", ["class_definition"]),
   ("method", ["function_definition"]),
   ("import", ["import_statement", "import_from_statement"])]

/-- The `javascript` table of `languages.NODE_TYPES`
(`languages.py` lines 88-93), in insertion order. -/
def javascript_node_types : List (String × List String) :=
  [("function", ["function_declaration", "arrow_function", "function_expression"]),
   ("class", ["class_declaration"]),
   ("method", ["method_definition"]),
   ("import", ["import_statement"])]

/-- Concrete Python source: an outer function `f` (lines 1-4) holding a
nested function `g` (lines 2-3). -/
def demo_py_src : List Char := "def f():\n def g():\n  y\n z".toList

/-- The `identifier` child holding `f`. -/
def demo_ident_f : SNode := SNode.mk "identifier" 0 0 4 5 []

/-- The `identifier` child holding `g`. -/
def demo_ident_g : SNode := SNode.mk "identifier" 1 1 14 15 []

/-- The nested `function_definition` for `g` (rows 1-2). -/
def demo_inner_fn : SNode := SNode.mk "function_definition" 1 2 10 22 [demo_ident_g]

/-- The outer `function_definition` for `f` (rows 0-3). -/
def demo_outer_fn : SNode := SNode.mk "function_definition" 0 3 0 25 [demo_ident_f, demo_inner_fn]

/-- The root `module` node of the Python demo tree. -/
def demo_py_tree : SNode := SNode.mk "module" 0 3 0 25 [demo_outer_fn]

/-- A Python `LanguageInfo` whose parser returns the demo tree. -/
def demo_py_li : LanguageInfo :=
  { name := "python", parse := fun _ => demo_py_tree, node_types := python_node_types }

/-- JavaScript source for a bare method construct: `m()`. -/
def demo_js_src : List Char := "m()".toList

/-- The `property_identifier` child holding `m`. -/
def demo_js_pid : SNode := SNode.mk "property_identifier" 0 0 0 1 []

/-- A `method_definition` node with no class-like ancestor (as produced
by tree-sitter for a method of an object literal). -/
def demo_js_mdef : SNode := SNode.mk "method_definition" 0 0 0 3 [demo_js_pid]

/-- The root `program` node of the JavaScript demo tree. -/
def demo_js_tree : SNode := SNode.mk "program" 0 0 0 3 [demo_js_mdef]

/-- A JavaScript `LanguageInfo` whose parser returns the demo tree. -/
def demo_js_li : LanguageInfo :=
  { name := "javascript", parse := fun _ => demo_js_tree, node_types := javascript_node_types }

/-- The record the mapper emits for the outer function `f` of the Python
demo. -/
def demo_outer_record : ASTNode :=
  { type := "function", name := ['f'], line_start := 1, line_end := 4,
    change_type := "modified", diff_lines := [3], parent := none,
    signature := "def f():".toList, content := demo_py_src }

/-- The record the mapper emits for the nested function `g` of the Python
demo. -/
def demo_inner_record : ASTNode :=
  { type := "function", name := ['g'], line_start := 2, line_end := 3,
    change_type := "modified", diff_lines := [3], parent := none,
    signature := "def g():".toList, content := "def g():\n  y".toList }

/-- The record the mapper emits for the bare `method_definition` of the
JavaScript demo: category `method` with an absent parent name. -/
def c1_counter_record : ASTNode :=
  { type := "method", name := ['m'], line_start := 1, line_end := 1,
    change_type := "modified", diff_lines := [1], parent := none,
    signature := "m()".toList, content := "m()".toList }

/-- A child is one of the four types that end the name scan at once. -/
def is_name_stop_type (c : SNode) : Bool :=
  c.type == "identifier" || c.type == "name" ||
  c.type == "property_identifier" || c.type == "type_identifier"

/-- Negation of `is_name_stop_type`, for hypotheses over child lists. -/
def not_name_stop_type (c : SNode) : Bool := !(is_name_stop_type c)

/-- A child matches some pattern of the name resolution: one of the four
stopping types, or a `variable_declarator` holding an `identifier` or
`name` subchild. -/
def matches_name_pattern (c : SNode) : Bool :=
  is_name_stop_type c ||
  (c.type == "variable_declarator" &&
    c.children.any (fun s => s.type == "identifier" || s.type == "name"))

/-- Negation of `matches_name_pattern`, for hypotheses over child lists. -/
def no_name_pattern (c : SNode) : Bool := !(matches_name_pattern c)

/-- Name resolution as the SPEC's words describe it (a fixed priority
search over the patterns, the first matching pattern winning): the first
`identifier` child; else the first `name` child; else the first
`property_identifier` child; else the first `type_identifier` child;
else the identifier inside the first matching `variable_declarator`
child; else the sentinel.  Stated for comparison with `get_node_name`. -/
def get_node_name_priority_spec (node : SNode) (source_bytes : List Char) : List Char :=
  match node.children.find? (fun c => c.type == "identifier") with
  | some c => c.text source_bytes
  | none =>
    match node.children.find? (fun c => c.type == "name") with
    | some c => c.text source_bytes
    | none =>
      match node.children.find? (fun c => c.type == "property_identifier") with
      | some c => c.text source_bytes
      | none =>
        match node.children.find? (fun c => c.type == "type_identifier") with
        | some c => c.text source_bytes
        | none =>
          match node.children.findSome? (fun c =>
            if c.type == "variable_declarator" then subchild_scan c.children none
            else none) with
          | some s => s.text source_bytes
          | none => anonymous_name

/-- Source for the C5 counterexample node: `x` then `y`. -/
def c5_src : List Char := "xy".toList

/-- A child of type `name` holding `x`. -/
def c5_name_child : SNode := SNode.mk "name" 0 0 0 1 []

/-- A child of type `identifier` holding `y`. -/
def c5_ident_child : SNode := SNode.mk "identifier" 0 0 1 2 []

/-- A node whose children are a `name` child followed by an `identifier`
child: the code stops at the `name` child, while an identifier-first
priority search would pick the `identifier` child. -/
def c5_counter_node : SNode :=
  SNode.mk "variable_declaration" 0 0 0 2 [c5_name_child, c5_ident_child]

/-- Source for the C5 override demo: `a` then `b`. -/
def c5_ov_src : List Char := "ab".toList

/-- The `identifier` subchild holding `a`. -/
def c5_ov_ident_a : SNode := SNode.mk "identifier" 0 0 0 1 []

/-- A `variable_declarator` child holding the identifier `a`. -/
def c5_ov_declarator : SNode := SNode.mk "variable_declarator" 0 0 0 1 [c5_ov_ident_a]

/-- A later `identifier` child holding `b`. -/
def c5_ov_ident_b : SNode := SNode.mk "identifier" 0 0 1 2 []

/-- A node where a `variable_declarator` match (`a`) is followed by an
`identifier` child (`b`): the scan does not stop at the declarator, so
`b` overrides `a`. -/
def c5_ov_node : SNode :=
  SNode.mk "variable_declaration" 0 0 0 2 [c5_ov_declarator, c5_ov_ident_b]

/-- A child matching no name pattern. -/
def c5_anon_child : SNode := SNode.mk "parameters" 0 0 0 0 []

/-- A node none of whose children matches a name pattern. -/
def c5_anon_node : SNode := SNode.mk "lambda" 0 0 0 2 [c5_anon_child]

/-- A line contains no opening brace (hypothesis form for the signature
lemmas). -/
def line_has_no_brace (l : List Char) : Bool := !(contains_brace l)

/-- Source for the C6 demo: lines `int f()`, `x`, and `y` followed by an
opening brace and `z`. -/
def c6_src : List Char := "int f()\nx\ny".toList ++ [brace_char] ++ "z".toList

/-- A node spanning the whole C6 demo source. -/
def c6_node : SNode := SNode.mk "function_definition" 0 2 0 13 []

/-- A line's right-stripped text does not end with a colon (hypothesis
form for the Python signature lemmas). -/
def line_lacks_colon (l : List Char) : Bool := !(ends_with_colon l)

/-- Source for the C10 demo: two lines, neither ending with a colon. -/
def c10_src : List Char := "ab\ncd".toList

/-- A node spanning the whole C10 demo source. -/
def c10_node : SNode := SNode.mk "function_definition" 0 1 0 5 []

theorem split_lines_ne_nil (s : List Char) : split_lines s ≠ [] := by
  cases s with
  | nil => simp [split_lines]
  | cons c cs =>
    simp only [split_lines]
    cases h : split_lines cs with
    | nil => simp
    | cons l ls => by_cases hc : (c == '\n') = true <;> simp [hc]

theorem join_split_lines (s : List Char) : join_lines (split_lines s) = s := by
  induction s with
  | nil => rfl
  | cons c cs ih =>
    simp only [split_lines]
    cases h : split_lines cs with
    | nil => exact absurd h (split_lines_ne_nil cs)
    | cons l ls =>
      rw [h] at ih
      by_cases hc : (c == '\n') = true
      · have hc2 : c = '\n' := by simpa using hc
        subst hc2
        simp [join_lines, ih]
      · simp only [hc, if_false, Bool.false_eq_true]
        cases ls with
        | nil => simpa [join_lines] using congrArg (c :: ·) ih
        | cons l2 ls2 =>
          simp only [join_lines] at ih ⊢
          rw [List.cons_append, ih]

theorem python_sig_parts_of_no_colon :
    ∀ lines : List (List Char), lines.all line_lacks_colon = true →
      python_sig_parts lines = lines
  | [], _ => rfl
  | line :: rest, h => by
    simp only [List.all_cons, Bool.and_eq_true] at h
    have h1 : ends_with_colon line = false := by
      have := h.1
      simpa [line_lacks_colon] using this
    simp [python_sig_parts, h1, python_sig_parts_of_no_colon rest h.2]

/-- Claim C10: for the indentation-delimited branch (language `python`),
signature extraction accumulates lines with no length cap until a line
whose right-stripped text ends with a colon; for every node whose text
contains no such line, the returned signature equals the node's entire
source text. -/
theorem claim_C10 (node : SNode) (source_bytes : List Char)
    (h : (split_lines (node.text source_bytes)).all line_lacks_colon = true) :
    get_signature node source_bytes "python" = node.text source_bytes := by
  unfold get_signature
  cases hs : split_lines (node.text source_bytes) with
  | nil => exact absurd hs (split_lines_ne_nil _)
  | cons first rest =>
    rw [hs] at h
    simp only [hs, beq_self_eq_true, if_true]
    rw [python_sig_parts_of_no_colon _ h, ← hs, join_split_lines]

theorem claim_C10_witness :
    (split_lines (c10_node.text c10_src)).all line_lacks_colon = true ∧
    get_signature c10_node c10_src "python" = c10_node.text c10_src :=
  ⟨by decide, claim_C10 c10_node c10_src (by decide)⟩

/-- Claim C7: for every taxonomy, if the source text is empty or the
changed-line set is empty, `map_changes_to_ast` returns the empty list
(and, being a total function, raises no error). -/
theorem claim_C7 (source_code : List Char) (changed_lines : List Nat)
    (lang_info : LanguageInfo) (h : source_code = [] ∨ changed_lines = []) :
    map_changes_to_ast source_code changed_lines lang_info = [] := by
  unfold map_changes_to_ast
  rw [if_pos h]

theorem claim_C7_witness :
    (("".toList : List Char) = [] ∨ ([3] : List Nat) = []) ∧
    map_changes_to_ast "".toList [3] demo_py_li = [] :=
  ⟨Or.inl rfl, claim_C7 _ _ _ (Or.inl rfl)⟩

/-- Claim C9: the reported file path comes from Python's `lstrip` with
the character set `"b/"` on the target path (`"a/"` on the source path
for deleted files), which removes ALL leading characters drawn from the
set rather than one two-character prefix, so for target path `b/bar.py`
the reported path is `ar.py`, not `bar.py`. -/
theorem claim_C9 :
    derive_path FileStatus.modified "a/bar.py".toList "b/bar.py".toList = "ar.py".toList ∧
    "ar.py".toList ≠ "bar.py".toList ∧
    derive_path FileStatus.deleted "a/abba.py".toList "b/abba.py".toList = "bba.py".toList ∧
    lstrip_set "b/".toList "b/b/x.py".toList = "x.py".toList := by
  refine ⟨by decide, by decide, by decide, by decide⟩

theorem brace_sig_parts_length :
    ∀ (rest parts : List (List Char)), parts.length ≤ 5 →
      (brace_sig_parts parts rest).length ≤ 6
  | [], parts, h => by
    simpa [brace_sig_parts] using Nat.le_trans h (by omega)
  | line :: rest, parts, h => by
    by_cases hb : contains_brace line = true
    · simp [brace_sig_parts, hb]
      omega
    · simp only [brace_sig_parts, hb, Bool.false_eq_true, if_false]
      by_cases h5 : (parts ++ [line]).length > 5
      · simp only [h5, if_true]
        simp at h5 ⊢
        omega
      · simp only [h5, if_false]
        exact brace_sig_parts_length rest (parts ++ [line]) (by simp at h5 ⊢; omega)

theorem brace_sig_parts_no_brace :
    ∀ (rest parts : List (List Char)), parts.length ≤ 5 →
      (rest.take (6 - parts.length)).all line_has_no_brace = true →
      brace_sig_parts parts rest = parts ++ rest.take (6 - parts.length)
  | [], parts, _, _ => by simp [brace_sig_parts]
  | line :: rest, parts, h, hall => by
    have htake : (line :: rest).take (6 - parts.length)
        = line :: rest.take (5 - parts.length) := by
      have : 6 - parts.length = (5 - parts.length) + 1 := by omega
      simp [this, List.take_succ_cons]
    rw [htake] at hall
    simp only [List.all_cons, Bool.and_eq_true] at hall
    have hb : contains_brace line = false := by
      have := hall.1
      simpa [line_has_no_brace] using this
    simp only [brace_sig_parts, hb, Bool.false_eq_true, if_false]
    by_cases h5 : (parts ++ [line]).length > 5
    · have hp : parts.length = 5 := by simp at h5; omega
      simp only [h5, if_true, htake]
      simp [hp]
    · simp only [h5, if_false, htake]
      have hlen : (parts ++ [line]).length ≤ 5 := by simp at h5 ⊢; omega
      have hlen6 : 6 - (parts ++ [line]).length = 5 - parts.length := by
        simp only [List.length_append, List.length_cons, List.length_nil]
        omega
      have harg : (rest.take (6 - (parts ++ [line]).length)).all line_has_no_brace = true := by
        rw [hlen6]
        exact hall.2
      rw [brace_sig_parts_no_brace rest (parts ++ [line]) hlen harg]
      simp [hlen6]

theorem brace_sig_parts_brace_stop :
    ∀ (pre parts : List (List Char)) (line : List Char) (post : List (List Char)),
      parts.length + pre.length ≤ 5 → pre.all line_has_no_brace = true →
      contains_brace line = true →
      brace_sig_parts parts (pre ++ line :: post)
        = (parts ++ pre) ++ [strip_chars (before_brace line)]
  | [], parts, line, post, _, _, hb => by
    simp [brace_sig_parts, hb]
  | p :: pre, parts, line, post, hlen, hall, hb => by
    simp only [List.all_cons, Bool.and_eq_true] at hall
    have hp : contains_brace p = false := by
      have := hall.1
      simpa [line_has_no_brace] using this
    simp only [List.cons_append, brace_sig_parts, hp, Bool.false_eq_true, if_false]
    have h5 : ¬((parts ++ [p]).length > 5) := by
      simp at hlen ⊢
      omega
    simp only [h5, if_false, List.append_eq]
    rw [brace_sig_parts_brace_stop pre (parts ++ [p]) line post
      (by simp at hlen ⊢; omega) hall.2 hb]
    simp

/-- Claim C6: for brace-delimited languages, when a node's first line has
no opening brace, signature extraction accumulates subsequent lines and
stops at the first line containing an opening brace (keeping that line's
text up to the brace) or after 5 accumulated lines, whichever comes
first; the signature therefore never holds more than the first line plus
5 accumulated lines. -/
theorem claim_C6 (node : SNode) (source_bytes : List Char) (language : String)
    (first : List Char) (rest : List (List Char))
    (hlang : language ≠ "python")
    (hs : split_lines (node.text source_bytes) = first :: rest)
    (hfirst : contains_brace first = false) :
    get_signature node source_bytes language = join_lines (brace_sig_parts [first] rest) ∧
    (brace_sig_parts [first] rest).length ≤ 1 + 5 ∧
    ((rest.take 5).all line_has_no_brace = true →
      brace_sig_parts [first] rest = first :: rest.take 5) ∧
    (∀ (pre : List (List Char)) (line : List Char) (post : List (List Char)),
      rest = pre ++ line :: post → pre.length ≤ 4 →
      pre.all line_has_no_brace = true → contains_brace line = true →
      brace_sig_parts [first] rest = (first :: pre) ++ [strip_chars (before_brace line)]) := by
  refine ⟨?_, ?_, ?_, ?_⟩
  · unfold get_signature
    have hl : (language == "python") = false := by
      simpa using hlang
    simp only [hs, hl, Bool.false_eq_true, if_false, hfirst]
  · exact brace_sig_parts_length rest [first] (by simp)
  · intro hall
    have := brace_sig_parts_no_brace rest [first] (by simp) (by simpa using hall)
    simpa using this
  · intro pre line post hr hlen hall hb
    subst hr
    have := brace_sig_parts_brace_stop pre [first] line post
      (by simp; omega) hall hb
    simpa using this

theorem claim_C6_witness :
    (("c" : String) ≠ "python" ∧
      split_lines (c6_node.text c6_src)
        = "int f()".toList :: ["x".toList, "y".toList ++ [brace_char] ++ "z".toList] ∧
      contains_brace "int f()".toList = false) ∧
    get_signature c6_node c6_src "c"
      = join_lines (brace_sig_parts ["int f()".toList]
          ["x".toList, "y".toList ++ [brace_char] ++ "z".toList]) :=
  ⟨⟨by decide, by decide, by decide⟩,
   (claim_C6 c6_node c6_src "c" "int f()".toList
      ["x".toList, "y".toList ++ [brace_char] ++ "z".toList]
      (by decide) (by decide) (by decide)).1⟩

theorem subchild_scan_of_no_match :
    ∀ (subs : List SNode) (acc : Option SNode),
      subs.any (fun s => s.type == "identifier" || s.type == "name") = false →
      subchild_scan subs acc = acc
  | [], _, _ => rfl
  | s :: rest, acc, h => by
    simp only [List.any_cons, Bool.or_eq_false_iff] at h
    simp only [subchild_scan, h.1, Bool.false_eq_true, if_false]
    exact subchild_scan_of_no_match rest acc h.2

theorem name_scan_of_no_pattern :
    ∀ (cs : List SNode) (acc : Option SNode),
      cs.all no_name_pattern = true → name_scan cs acc = acc
  | [], _, _ => rfl
  | c :: rest, acc, h => by
    simp only [List.all_cons, Bool.and_eq_true] at h
    have hm : matches_name_pattern c = false := by
      have := h.1
      simpa [no_name_pattern] using this
    simp only [matches_name_pattern, Bool.or_eq_false_iff] at hm
    have hstop := hm.1
    simp only [is_name_stop_type, Bool.or_eq_false_iff] at hstop
    obtain ⟨⟨⟨e1, e2⟩, e3⟩, e4⟩ := hstop
    simp only [name_scan, e1, e2, e3, e4, Bool.false_eq_true, if_false]
    by_cases hvd : (c.type == "variable_declarator") = true
    · have hany : c.children.any (fun s => s.type == "identifier" || s.type == "name") = false := by
        have := hm.2
        simp only [hvd, Bool.true_and] at this
        exact this
      rw [if_pos hvd, subchild_scan_of_no_match c.children acc hany]
      exact name_scan_of_no_pattern rest acc h.2
    · rw [if_neg hvd]
      exact name_scan_of_no_pattern rest acc h.2

theorem name_scan_stop :
    ∀ (pre : List SNode) (c : SNode) (post : List SNode) (acc : Option SNode),
      pre.all not_name_stop_type = true → is_name_stop_type c = true →
      name_scan (pre ++ c :: post) acc = some c
  | [], c, post, acc, _, hc => by
    simp only [is_name_stop_type, Bool.or_eq_true, beq_iff_eq] at hc
    rcases hc with ((h | h) | h) | h <;> simp [name_scan, h]
  | p :: pre, c, post, acc, hall, hc => by
    simp only [List.all_cons, Bool.and_eq_true] at hall
    have hstop : is_name_stop_type p = false := by
      have := hall.1
      simpa [not_name_stop_type] using this
    simp only [is_name_stop_type, Bool.or_eq_false_iff] at hstop
    obtain ⟨⟨⟨e1, e2⟩, e3⟩, e4⟩ := hstop
    simp only [List.cons_append, name_scan, e1, e2, e3, e4, Bool.false_eq_true, if_false]
    by_cases hvd : (p.type == "variable_declarator") = true
    · rw [if_pos hvd]
      exact name_scan_stop pre c post _ hall.2 hc
    · rw [if_neg hvd]
      exact name_scan_stop pre c post acc hall.2 hc

/-- Claim C5 (amended): name resolution scans the node's immediate
children left to right; a child of one of the four stopping types
(`identifier`, `name`, `property_identifier`, `type_identifier`) ends
the scan at once and wins even when an earlier `variable_declarator`
child had already matched (the declarator pattern does not stop the
scan, so a later match overrides it); when no pattern matches any child
the resolved name is the sentinel anonymous value. -/
theorem claim_C5 :
    (∀ (node : SNode) (source_bytes : List Char) (language : String),
      node.children.all no_name_pattern = true →
      get_node_name node source_bytes language = anonymous_name) ∧
    (∀ (t : String) (sr er sb eb : Nat) (pre : List SNode) (c : SNode)
        (post : List SNode) (source_bytes : List Char) (language : String),
      pre.all not_name_stop_type = true → is_name_stop_type c = true →
      get_node_name (SNode.mk t sr er sb eb (pre ++ c :: post)) source_bytes language
        = c.text source_bytes) ∧
    get_node_name c5_ov_node c5_ov_src "javascript" = ['b'] := by
  refine ⟨?_, ?_, by decide⟩
  · intro node source_bytes language h
    unfold get_node_name
    rw [name_scan_of_no_pattern node.children none h]
  · intro t sr er sb eb pre c post source_bytes language hall hc
    unfold get_node_name
    rw [show (SNode.mk t sr er sb eb (pre ++ c :: post)).children = pre ++ c :: post from rfl]
    rw [name_scan_stop pre c post none hall hc]

theorem claim_C5_witness :
    (c5_anon_node.children.all no_name_pattern = true ∧
      get_node_name c5_anon_node c5_src "python" = anonymous_name) ∧
    get_node_name (SNode.mk "variable_declaration" 0 0 0 2
        ([c5_ov_declarator] ++ c5_ov_ident_b :: [])) c5_ov_src "javascript"
      = c5_ov_ident_b.text c5_ov_src :=
  ⟨⟨by decide, claim_C5.1 c5_anon_node c5_src "python" (by decide)⟩,
   claim_C5.2.1 "variable_declaration" 0 0 0 2 [c5_ov_declarator] c5_ov_ident_b []
     c5_ov_src "javascript" (by decide) (by decide)⟩

theorem claim_C5_counterexample :
    get_node_name c5_counter_node c5_src "javascript" = ['x'] ∧
    get_node_name_priority_spec c5_counter_node c5_src = ['y'] ∧
    get_node_name c5_counter_node c5_src "javascript"
      ≠ get_node_name_priority_spec c5_counter_node c5_src := by
  refine ⟨by decide, by decide, by decide⟩

theorem snode_strong_ind (P : SNode → Prop)
    (h : ∀ t sr er sb eb cs, (∀ c ∈ cs, P c) → P (SNode.mk t sr er sb eb cs)) :
    ∀ n, P n
  | SNode.mk t sr er sb eb cs =>
    h t sr er sb eb cs (fun c hc => snode_strong_ind P h c)
termination_by n => sizeOf n
decreasing_by
  have hlt := List.sizeOf_lt_of_mem hc
  simp only [SNode.mk.sizeOf_spec]
  omega

theorem find_list_preserves (changed_lines : List Nat) (source_bytes : List Char)
    (lang_info : LanguageInfo) (Inv : TravState → Prop) :
    ∀ (cs anc : List SNode) (st : TravState),
      (∀ c ∈ cs, ∀ anc2 st2, Inv st2 →
        Inv (find_containing_nodes changed_lines source_bytes lang_info anc2 c st2)) →
      Inv st → Inv (find_containing_list changed_lines source_bytes lang_info anc cs st)
  | [], anc, st, _, hst => by
    rw [find_containing_list]
    exact hst
  | c :: cs, anc, st, hcs, hst => by
    rw [find_containing_list]
    exact find_list_preserves changed_lines source_bytes lang_info Inv cs anc _
      (fun c2 hc2 => hcs c2 (List.mem_cons_of_mem _ hc2))
      (hcs c (List.mem_cons_self _ _) anc st hst)

theorem find_preserves (changed_lines : List Nat) (source_bytes : List Char)
    (lang_info : LanguageInfo) (Inv : TravState → Prop)
    (hproc : ∀ anc n st,
      sorted_overlapping_lines (n.start_row + 1) (n.end_row + 1) changed_lines ≠ [] →
      Inv st → Inv (process_node changed_lines source_bytes lang_info anc n st)) :
    ∀ n anc st, Inv st →
      Inv (find_containing_nodes changed_lines source_bytes lang_info anc n st) := by
  intro n
  induction n using snode_strong_ind with
  | _ t sr er sb eb cs ih =>
    intro anc st hst
    rw [find_containing_nodes]
    by_cases hov : sorted_overlapping_lines (sr + 1) (er + 1) changed_lines = []
    · rw [if_pos hov]
      exact hst
    · rw [if_neg hov]
      exact find_list_preserves changed_lines source_bytes lang_info Inv cs _ _
        (fun c hc anc2 st2 h2 => ih c hc anc2 st2 h2)
        (hproc anc (SNode.mk t sr er sb eb cs) st hov hst)

theorem sorted_overlapping_lines_congr (changed_lines changed_lines2 : List Nat)
    (hmem : ∀ l, changed_lines.contains l = changed_lines2.contains l) (s e : Nat) :
    sorted_overlapping_lines s e changed_lines = sorted_overlapping_lines s e changed_lines2 := by
  unfold sorted_overlapping_lines
  exact List.filter_congr (fun a _ => hmem a)

theorem process_node_congr (changed_lines changed_lines2 : List Nat)
    (source_bytes : List Char) (lang_info : LanguageInfo) (anc : List SNode)
    (n : SNode) (st : TravState)
    (hmem : ∀ l, changed_lines.contains l = changed_lines2.contains l) :
    process_node changed_lines source_bytes lang_info anc n st
      = process_node changed_lines2 source_bytes lang_info anc n st := by
  unfold process_node
  simp only [sorted_overlapping_lines_congr changed_lines changed_lines2 hmem]

theorem find_list_congr (changed_lines changed_lines2 : List Nat)
    (source_bytes : List Char) (lang_info : LanguageInfo) :
    ∀ (cs anc : List SNode) (st : TravState),
      (∀ c ∈ cs, ∀ anc2 st2,
        find_containing_nodes changed_lines source_bytes lang_info anc2 c st2
          = find_containing_nodes changed_lines2 source_bytes lang_info anc2 c st2) →
      find_containing_list changed_lines source_bytes lang_info anc cs st
        = find_containing_list changed_lines2 source_bytes lang_info anc cs st
  | [], anc, st, _ => by
    rw [find_containing_list, find_containing_list]
  | c :: cs, anc, st, hcs => by
    rw [find_containing_list, find_containing_list]
    rw [hcs c (List.mem_cons_self _ _)]
    exact find_list_congr changed_lines changed_lines2 source_bytes lang_info cs anc _
      (fun c2 hc2 => hcs c2 (List.mem_cons_of_mem _ hc2))

theorem find_congr (changed_lines changed_lines2 : List Nat) (source_bytes : List Char)
    (lang_info : LanguageInfo)
    (hmem : ∀ l, changed_lines.contains l = changed_lines2.contains l) :
    ∀ (n : SNode) (anc : List SNode) (st : TravState),
      find_containing_nodes changed_lines source_bytes lang_info anc n st
        = find_containing_nodes changed_lines2 source_bytes lang_info anc n st := by
  intro n
  induction n using snode_strong_ind with
  | _ t sr er sb eb cs ih =>
    intro anc st
    rw [find_containing_nodes, find_containing_nodes,
      sorted_overlapping_lines_congr changed_lines changed_lines2 hmem (sr + 1) (er + 1),
      process_node_congr changed_lines changed_lines2 source_bytes lang_info anc
        (SNode.mk t sr er sb eb cs) st hmem]
    by_cases hov : sorted_overlapping_lines (sr + 1) (er + 1) changed_lines2 = []
    · rw [if_pos hov, if_pos hov]
    · rw [if_neg hov, if_neg hov]
      exact find_list_congr changed_lines changed_lines2 source_bytes lang_info cs _ _
        (fun c hc anc2 st2 => ih c hc anc2 st2)

theorem insert_by_line_start_perm (a : ASTNode) :
    ∀ l : List ASTNode, List.Perm (insert_by_line_start a l) (a :: l)
  | [] => List.Perm.refl [a]
  | b :: bs => by
    unfold insert_by_line_start
    by_cases h : b.line_start ≤ a.line_start
    · rw [if_pos h]
      exact ((insert_by_line_start_perm a bs).cons b).trans (List.Perm.swap a b bs)
    · rw [if_neg h]

theorem sort_fold_perm :
    ∀ (l acc : List ASTNode),
      List.Perm (l.foldl (fun acc2 a => insert_by_line_start a acc2) acc) (acc ++ l)
  | [], acc => by simp
  | a :: l, acc => by
    simp only [List.foldl_cons]
    refine (sort_fold_perm l (insert_by_line_start a acc)).trans ?_
    refine ((insert_by_line_start_perm a acc).append_right l).trans ?_
    simp only [List.cons_append]
    exact List.perm_middle.symm

theorem sort_by_line_start_perm (l : List ASTNode) :
    List.Perm (sort_by_line_start l) l := by
  simpa using sort_fold_perm l []

theorem map_changes_of_empty (source_code : List Char) (changed_lines : List Nat)
    (lang_info : LanguageInfo) (h : source_code = [] ∨ changed_lines = []) :
    map_changes_to_ast source_code changed_lines lang_info = [] := by
  unfold map_changes_to_ast
  rw [if_pos h]

theorem map_changes_of_ne (source_code : List Char) (changed_lines : List Nat)
    (lang_info : LanguageInfo) (h1 : source_code ≠ []) (h2 : changed_lines ≠ []) :
    map_changes_to_ast source_code changed_lines lang_info =
      sort_by_line_start
        (find_containing_nodes changed_lines source_code lang_info []
          (lang_info.parse source_code) ([], [])).1 := by
  unfold map_changes_to_ast
  rw [if_neg (by push_neg; exact ⟨h1, h2⟩)]

theorem process_node_cases (changed_lines : List Nat) (source_bytes : List Char)
    (lang_info : LanguageInfo) (anc : List SNode) (n : SNode) (st : TravState) :
    process_node changed_lines source_bytes lang_info anc n st = st ∨
    ∃ category, categorize_node_type n.type lang_info.node_types = some category ∧
      (n.start_row + 1, n.end_row + 1) ∉ st.2 ∧
      process_node changed_lines source_bytes lang_info anc n st =
        (st.1 ++ [{ type := if category == "function" &&
                        parent_is_truthy (get_parent_name anc source_bytes)
                      then "method" else category,
                    name := get_node_name n source_bytes lang_info.name,
                    line_start := n.start_row + 1, line_end := n.end_row + 1,
                    change_type := "modified",
                    diff_lines := sorted_overlapping_lines (n.start_row + 1)
                      (n.end_row + 1) changed_lines,
                    parent := get_parent_name anc source_bytes,
                    signature := get_signature n source_bytes lang_info.name,
                    content := n.text source_bytes }],
         (n.start_row + 1, n.end_row + 1) :: st.2) := by
  unfold process_node
  cases hcat : categorize_node_type n.type lang_info.node_types with
  | none =>
    left
    simp only [hcat]
  | some category =>
    by_cases hkey : (n.start_row + 1, n.end_row + 1) ∈ st.2
    · left
      simp only [hcat, hkey, if_true]
    · right
      refine ⟨category, rfl, hkey, ?_⟩
      simp only [hcat, hkey, if_false]

theorem process_node_preserves_diff (changed_lines : List Nat) (source_bytes : List Char)
    (lang_info : LanguageInfo) (anc : List SNode) (n : SNode) (st : TravState)
    (hov : sorted_overlapping_lines (n.start_row + 1) (n.end_row + 1) changed_lines ≠ [])
    (hst : ∀ r ∈ st.1, r.diff_lines
        = sorted_overlapping_lines r.line_start r.line_end changed_lines ∧
      r.diff_lines ≠ []) :
    ∀ r ∈ (process_node changed_lines source_bytes lang_info anc n st).1,
      r.diff_lines = sorted_overlapping_lines r.line_start r.line_end changed_lines ∧
      r.diff_lines ≠ [] := by
  rcases process_node_cases changed_lines source_bytes lang_info anc n st with
    heq | ⟨category, hcat, hkey, heq⟩
  · rw [heq]
    exact hst
  · rw [heq]
    intro r hr
    rcases List.mem_append.mp hr with h | h
    · exact hst r h
    · have hr2 := List.mem_singleton.mp h
      subst hr2
      exact ⟨rfl, hov⟩

theorem process_node_preserves_ranges (changed_lines : List Nat) (source_bytes : List Char)
    (lang_info : LanguageInfo) (anc : List SNode) (n : SNode) (st : TravState)
    (hst : (∀ r ∈ st.1, (r.line_start, r.line_end) ∈ st.2) ∧
      st.1.Pairwise (fun a b => (a.line_start, a.line_end) ≠ (b.line_start, b.line_end))) :
    (∀ r ∈ (process_node changed_lines source_bytes lang_info anc n st).1,
      (r.line_start, r.line_end) ∈ (process_node changed_lines source_bytes lang_info anc n st).2) ∧
    (process_node changed_lines source_bytes lang_info anc n st).1.Pairwise
      (fun a b => (a.line_start, a.line_end) ≠ (b.line_start, b.line_end)) := by
  rcases process_node_cases changed_lines source_bytes lang_info anc n st with
    heq | ⟨category, hcat, hkey, heq⟩
  · rw [heq]
    exact hst
  · rw [heq]
    constructor
    · intro r hr
      rcases List.mem_append.mp hr with h | h
      · exact List.mem_cons_of_mem _ (hst.1 r h)
      · have hr2 := List.mem_singleton.mp h
        subst hr2
        exact List.mem_cons_self _ _
    · rw [List.pairwise_append]
      refine ⟨hst.2, by simp, ?_⟩
      intro a ha b hb
      have hb2 := List.mem_singleton.mp hb
      subst hb2
      intro hcontra
      exact hkey (hcontra ▸ hst.1 a ha)

theorem process_node_preserves_function_parent (changed_lines : List Nat)
    (source_bytes : List Char) (lang_info : LanguageInfo) (anc : List SNode)
    (n : SNode) (st : TravState)
    (hst : ∀ r ∈ st.1, r.type = "function" → parent_is_truthy r.parent = false) :
    ∀ r ∈ (process_node changed_lines source_bytes lang_info anc n st).1,
      r.type = "function" → parent_is_truthy r.parent = false := by
  rcases process_node_cases changed_lines source_bytes lang_info anc n st with
    heq | ⟨category, hcat, hkey, heq⟩
  · rw [heq]
    exact hst
  · rw [heq]
    intro r hr
    rcases List.mem_append.mp hr with h | h
    · exact hst r h
    · have hr2 := List.mem_singleton.mp h
      subst hr2
      intro hf
      by_cases hb : (category == "function"
          && parent_is_truthy (get_parent_name anc source_bytes)) = true
      · rw [if_pos hb] at hf
        simp at hf
      · rw [if_neg hb] at hf
        subst hf
        simpa using hb

theorem sorted_overlapping_lines_pairwise (s e : Nat) (changed_lines : List Nat) :
    List.Pairwise (· < ·) (sorted_overlapping_lines s e changed_lines) :=
  List.Pairwise.filter _ (List.pairwise_lt_range' s (e + 1 - s))

theorem sorted_overlapping_lines_mem (s e : Nat) (changed_lines : List Nat) (l : Nat)
    (h : l ∈ sorted_overlapping_lines s e changed_lines) :
    s ≤ l ∧ l ≤ e ∧ l ∈ changed_lines := by
  unfold sorted_overlapping_lines at h
  rw [List.mem_filter] at h
  have h1 := List.mem_range'_1.mp h.1
  have h2 : l ∈ changed_lines := by simpa using h.2
  exact ⟨h1.1, by omega, h2⟩

/-- Claim C3: for every source text, changed-line set and taxonomy, every
record emitted by `map_changes_to_ast` has a non-empty, strictly
ascending `diff_lines` list whose members all lie in the inclusive range
`[line_start, line_end]` and in the changed-line set. -/
theorem claim_C3 (source_code : List Char) (changed_lines : List Nat)
    (lang_info : LanguageInfo) (r : ASTNode)
    (hr : r ∈ map_changes_to_ast source_code changed_lines lang_info) :
    r.diff_lines ≠ [] ∧ List.Pairwise (· < ·) r.diff_lines ∧
      ∀ l ∈ r.diff_lines, r.line_start ≤ l ∧ l ≤ r.line_end ∧ l ∈ changed_lines := by
  by_cases hg : source_code = [] ∨ changed_lines = []
  · rw [map_changes_of_empty source_code changed_lines lang_info hg] at hr
    exact absurd hr (List.not_mem_nil r)
  · push_neg at hg
    rw [map_changes_of_ne source_code changed_lines lang_info hg.1 hg.2] at hr
    have hr2 := (sort_by_line_start_perm _).mem_iff.mp hr
    have hinv := find_preserves changed_lines source_code lang_info
      (fun st => ∀ r2 ∈ st.1,
        r2.diff_lines = sorted_overlapping_lines r2.line_start r2.line_end changed_lines ∧
        r2.diff_lines ≠ [])
      (fun anc n st hov hst =>
        process_node_preserves_diff changed_lines source_code lang_info anc n st hov hst)
      (lang_info.parse source_code) [] ([], [])
      (fun r2 h2 => absurd h2 (List.not_mem_nil r2))
    obtain ⟨hdiff, hne⟩ := hinv r hr2
    refine ⟨hne, ?_, ?_⟩
    · rw [hdiff]
      exact sorted_overlapping_lines_pairwise _ _ _
    · intro l hl
      rw [hdiff] at hl
      exact sorted_overlapping_lines_mem _ _ _ _ hl

theorem claim_C3_witness :
    demo_outer_record ∈ map_changes_to_ast demo_py_src [3] demo_py_li ∧
    (demo_outer_record.diff_lines ≠ [] ∧
      List.Pairwise (· < ·) demo_outer_record.diff_lines ∧
      ∀ l ∈ demo_outer_record.diff_lines,
        demo_outer_record.line_start ≤ l ∧ l ≤ demo_outer_record.line_end ∧ l ∈ [3]) :=
  ⟨by decide, claim_C3 demo_py_src [3] demo_py_li demo_outer_record (by decide)⟩

/-- Claim C4: for every source text, changed-line set and taxonomy, no
two records in the returned list share an identical
`(line_start, line_end)` pair. -/
theorem claim_C4 (source_code : List Char) (changed_lines : List Nat)
    (lang_info : LanguageInfo) :
    (map_changes_to_ast source_code changed_lines lang_info).Pairwise
      (fun a b => (a.line_start, a.line_end) ≠ (b.line_start, b.line_end)) := by
  by_cases hg : source_code = [] ∨ changed_lines = []
  · rw [map_changes_of_empty source_code changed_lines lang_info hg]
    exact List.Pairwise.nil
  · push_neg at hg
    rw [map_changes_of_ne source_code changed_lines lang_info hg.1 hg.2]
    have hperm := sort_by_line_start_perm
      (find_containing_nodes changed_lines source_code lang_info []
        (lang_info.parse source_code) ([], [])).1
    have hinv := find_preserves changed_lines source_code lang_info
      (fun st => (∀ r ∈ st.1, (r.line_start, r.line_end) ∈ st.2) ∧
        st.1.Pairwise (fun a b => (a.line_start, a.line_end) ≠ (b.line_start, b.line_end)))
      (fun anc n st _ hst =>
        process_node_preserves_ranges changed_lines source_code lang_info anc n st hst)
      (lang_info.parse source_code) [] ([], [])
      ⟨fun r h2 => absurd h2 (List.not_mem_nil r), List.Pairwise.nil⟩
    exact (hperm.pairwise_iff (fun h => Ne.symm h)).mpr hinv.2

/-- Claim C1 (amended): a record emitted with category `function` never
has a resolvable (truthy) parent name — the `function`-to-`method`
re-labeling fires exactly when the parent walk yields a non-empty name.
A record may however carry category `method` with an ABSENT parent name,
because a taxonomy can map a raw node type (e.g. JavaScript's
`method_definition`) directly to `method`, and that category is kept
unchanged whether or not a named class-like ancestor exists. -/
theorem claim_C1 (source_code : List Char) (changed_lines : List Nat)
    (lang_info : LanguageInfo) (r : ASTNode)
    (hr : r ∈ map_changes_to_ast source_code changed_lines lang_info)
    (hf : r.type = "function") :
    parent_is_truthy r.parent = false := by
  by_cases hg : source_code = [] ∨ changed_lines = []
  · rw [map_changes_of_empty source_code changed_lines lang_info hg] at hr
    exact absurd hr (List.not_mem_nil r)
  · push_neg at hg
    rw [map_changes_of_ne source_code changed_lines lang_info hg.1 hg.2] at hr
    have hr2 := (sort_by_line_start_perm _).mem_iff.mp hr
    have hinv := find_preserves changed_lines source_code lang_info
      (fun st => ∀ r2 ∈ st.1, r2.type = "function" → parent_is_truthy r2.parent = false)
      (fun anc n st _ hst =>
        process_node_preserves_function_parent changed_lines source_code lang_info
          anc n st hst)
      (lang_info.parse source_code) [] ([], [])
      (fun r2 h2 => absurd h2 (List.not_mem_nil r2))
    exact hinv r hr2 hf

theorem claim_C1_witness :
    (demo_outer_record ∈ map_changes_to_ast demo_py_src [3] demo_py_li ∧
      demo_outer_record.type = "function") ∧
    parent_is_truthy demo_outer_record.parent = false :=
  ⟨⟨by decide, rfl⟩,
   claim_C1 demo_py_src [3] demo_py_li demo_outer_record (by decide) rfl⟩

theorem claim_C1_counterexample :
    map_changes_to_ast demo_js_src [1] demo_js_li = [c1_counter_record] ∧
    c1_counter_record.type = "method" ∧
    c1_counter_record.parent = none := by
  refine ⟨by decide, rfl, rfl⟩

/-- Claim C8: mapping is deterministic and idempotent — the mapper is a
pure function of its inputs, so re-invocation on the same triple yields
the identical ordered sequence, and the result depends on the
changed-line argument only through its membership (any two lists with
the same members, in any order and multiplicity, give equal results). -/
theorem claim_C8 (source_code : List Char) (changed_lines changed_lines2 : List Nat)
    (lang_info : LanguageInfo)
    (h1 : changed_lines.all (fun l => changed_lines2.contains l) = true)
    (h2 : changed_lines2.all (fun l => changed_lines.contains l) = true) :
    map_changes_to_ast source_code changed_lines lang_info
      = map_changes_to_ast source_code changed_lines lang_info ∧
    map_changes_to_ast source_code changed_lines lang_info
      = map_changes_to_ast source_code changed_lines2 lang_info := by
  refine ⟨rfl, ?_⟩
  have hmemiff : ∀ l, l ∈ changed_lines ↔ l ∈ changed_lines2 := by
    intro l
    constructor
    · intro hl
      have := List.all_eq_true.mp h1 l hl
      simpa using this
    · intro hl
      have := List.all_eq_true.mp h2 l hl
      simpa using this
  have hcont : ∀ l, changed_lines.contains l = changed_lines2.contains l := by
    intro l
    have hiff : (changed_lines.contains l = true) ↔ (changed_lines2.contains l = true) := by
      simpa using hmemiff l
    exact Bool.eq_iff_iff.mpr hiff
  by_cases hg : source_code = [] ∨ changed_lines = []
  · have hg2 : source_code = [] ∨ changed_lines2 = [] := by
      rcases hg with h | h
      · exact Or.inl h
      · right
        rw [List.eq_nil_iff_forall_not_mem]
        intro x hx
        have := (hmemiff x).mpr hx
        rw [h] at this
        exact absurd this (List.not_mem_nil x)
    rw [map_changes_of_empty source_code changed_lines lang_info hg,
      map_changes_of_empty source_code changed_lines2 lang_info hg2]
  · push_neg at hg
    have hne2 : changed_lines2 ≠ [] := by
      intro hnil
      rcases List.exists_mem_of_ne_nil changed_lines hg.2 with ⟨x, hx⟩
      have := (hmemiff x).mp hx
      rw [hnil] at this
      exact absurd this (List.not_mem_nil x)
    rw [map_changes_of_ne source_code changed_lines lang_info hg.1 hg.2,
      map_changes_of_ne source_code changed_lines2 lang_info hg.1 hne2,
      find_congr changed_lines changed_lines2 source_code lang_info hcont]

theorem claim_C8_witness :
    (([1, 2, 2] : List Nat).all (fun l => ([2, 1] : List Nat).contains l) = true ∧
      ([2, 1] : List Nat).all (fun l => ([1, 2, 2] : List Nat).contains l) = true) ∧
    map_changes_to_ast demo_py_src [1, 2, 2] demo_py_li
      = map_changes_to_ast demo_py_src [2, 1] demo_py_li :=
  ⟨⟨by decide, by decide⟩,
   (claim_C8 demo_py_src [1, 2, 2] [2, 1] demo_py_li (by decide) (by decide)).2⟩

/-- Claim C2: `map_changes_to_ast` returns every categorized,
range-deduplicated node found by the traversal — the containment filter
is computed but not applied: on every non-trivial input the returned
list is exactly the sorted traversal output, and on the concrete nested
demo both the outer construct and the construct nested inside it appear
in the returned list even though the computed filter would have dropped
the nested one. -/
theorem claim_C2 :
    (∀ (source_code : List Char) (changed_lines : List Nat) (lang_info : LanguageInfo),
      source_code ≠ [] → changed_lines ≠ [] →
      map_changes_to_ast source_code changed_lines lang_info =
        sort_by_line_start
          (find_containing_nodes changed_lines source_code lang_info []
            (lang_info.parse source_code) ([], [])).1) ∧
    map_changes_to_ast demo_py_src [3] demo_py_li
      = [demo_outer_record, demo_inner_record] ∧
    containment_filter (map_changes_to_ast demo_py_src [3] demo_py_li)
      = [demo_outer_record] := by
  refine ⟨?_, by decide, by decide⟩
  intro source_code changed_lines lang_info h1 h2
  exact map_changes_of_ne source_code changed_lines lang_info h1 h2

theorem claim_C2_witness :
    (demo_py_src ≠ [] ∧ ([3] : List Nat) ≠ []) ∧
    map_changes_to_ast demo_py_src [3] demo_py_li =
      sort_by_line_start
        (find_containing_nodes [3] demo_py_src demo_py_li []
          (demo_py_li.parse demo_py_src) ([], [])).1 :=
  ⟨⟨by decide, by decide⟩, claim_C2.1 demo_py_src [3] demo_py_li (by decide) (by decide)⟩
